import Mathlib

/-!
Verification of the code-sandbox orchestration engine.

The definitions below are shallow embeddings of the Go sources:
- the dependency detector (dependencies/parser.go),
- the language registry (languages package),
- the project-run command composition (tools/run_project.go and its sibling
  variant),
- the exec loop (tools Exec),
- single-file retrieval (tools/copy-file-from-container.go),
- the progress emission sequence of run_code.go,
- the output combination of foreground runs and log retrieval.

Go regular-expression scans are embedded as explicit character scanners
that reproduce the RE2 left-to-right, non-overlapping match semantics of
`FindAllStringSubmatch` for each concrete pattern in parser.go.  Strings
are processed as `List Char` via `String.data`; results are wrapped back
into `String`.
-/

/-! ### Character classes (RE2, ASCII semantics of parser.go patterns) -/

/-- RE2 word class: `[0-9A-Za-z_]`, used by the patterns written with a word
class in parser.go. -/
def isWordChar (c : Char) : Bool := c.isAlpha || c.isDigit || c = '_'

/-- RE2 space class: tab, newline, form feed, carriage return, space. -/
def isSpaceChar (c : Char) : Bool :=
  c = ' ' || c = '\t' || c = '\n' || c = '\x0c' || c = '\r'

/-- A single or double quotation mark, the bracket class of the Node and
Python dynamic-import patterns. -/
def isQuoteChar (c : Char) : Bool := c = '\x27' || c = '"'

/-- Match a literal character sequence, returning the remainder. -/
def litMatch : List Char → List Char → Option (List Char)
  | [], s => some s
  | _ :: _, [] => none
  | l :: ls, c :: cs => if l = c then litMatch ls cs else none

/-- A non-empty greedy run of characters satisfying `p` (a `+` repetition of
a character class): the maximal run is taken, and it must be non-empty. -/
def spanPlus (p : Char → Bool) (s : List Char) : Option (List Char × List Char) :=
  match s.span p with
  | (w, rest) => if w = [] then none else some (w, rest)

/-- Consume one quotation mark (single or double). -/
def quoteCh : List Char → Option (List Char)
  | c :: rest => if isQuoteChar c then some rest else none
  | [] => none

/-- Consume one double quotation mark. -/
def dquoteCh : List Char → Option (List Char)
  | c :: rest => if c = '"' then some rest else none
  | [] => none

/-! ### Scanners reproducing FindAllStringSubmatch

`scanAnchored` handles the `(?m)^...` patterns: a match may begin only at
the start of the text or directly after a newline; after a match the scan
resumes at the match end (non-overlapping).  `scanFree` handles the
unanchored patterns: every position is tried.  Both are driven by a fuel
argument; each step consumes at least one character, so fuel
`length + 1` is enough. -/

def scanAnchored (tryAt : List Char → Option (List Char × List Char)) :
    Nat → Bool → List Char → List (List Char)
  | 0, _, _ => []
  | _ + 1, _, [] => []
  | fuel + 1, atStart, c :: rest =>
    if atStart then
      match tryAt (c :: rest) with
      | some (w, s3) => w :: scanAnchored tryAt fuel false s3
      | none => scanAnchored tryAt fuel (c = '\n') rest
    else
      scanAnchored tryAt fuel (c = '\n') rest

def scanFree (tryAt : List Char → Option (List Char × List Char)) :
    Nat → List Char → List (List Char)
  | 0, _ => []
  | _ + 1, [] => []
  | fuel + 1, c :: rest =>
    match tryAt (c :: rest) with
    | some (w, s3) => w :: scanFree tryAt fuel s3
    | none => scanFree tryAt fuel rest

/-! ### The individual patterns of parser.go -/

/-- `pythonImportRe`: at a line start, the word `import`, spaces, then a
captured word. -/
def pyImportAt (s : List Char) : Option (List Char × List Char) := do
  let s1 ← litMatch "import".data s
  let (_, s2) ← spanPlus isSpaceChar s1
  let (w, s3) ← spanPlus isWordChar s2
  pure (w, s3)

/-- `pythonFromRe`: at a line start, `from`, spaces, a captured word,
spaces, then `import`. -/
def pyFromAt (s : List Char) : Option (List Char × List Char) := do
  let s1 ← litMatch "from".data s
  let (_, s2) ← spanPlus isSpaceChar s1
  let (w, s3) ← spanPlus isWordChar s2
  let (_, s4) ← spanPlus isSpaceChar s3
  let s5 ← litMatch "import".data s4
  pure (w, s5)

/-- `pythonDynamicRe`: anywhere, a dunder import call with a quoted word. -/
def pyDynamicAt (s : List Char) : Option (List Char × List Char) := do
  let s1 ← litMatch "__import__(".data s
  let s2 ← quoteCh s1
  let (w, s3) ← spanPlus isWordChar s2
  let s4 ← quoteCh s3
  let s5 ← litMatch ")".data s4
  pure (w, s5)

/-- `nodeRequireRe`: anywhere, `require(`, a quote, a captured non-empty
run of non-quote characters, a quote, `)`. -/
def nodeRequireAt (s : List Char) : Option (List Char × List Char) := do
  let s1 ← litMatch "require(".data s
  let s2 ← quoteCh s1
  let (w, s3) ← spanPlus (fun c => !(isQuoteChar c)) s2
  let s4 ← quoteCh s3
  let s5 ← litMatch ")".data s4
  pure (w, s5)

/-- `nodeDynamicRe`: anywhere, `import(`, a quoted non-empty path, `)`. -/
def nodeDynamicAt (s : List Char) : Option (List Char × List Char) := do
  let s1 ← litMatch "import(".data s
  let s2 ← quoteCh s1
  let (w, s3) ← spanPlus (fun c => !(isQuoteChar c)) s2
  let s4 ← quoteCh s3
  let s5 ← litMatch ")".data s4
  pure (w, s5)

/-- The import clause alternation of `nodeImportRe`: a braced name list, a
star-as alias, or a bare word.  The three alternatives are distinguished by
their first character, so RE2 alternation order is preserved. -/
def nodeImportClause (s : List Char) : Option (List Char) :=
  match s with
  | [] => none
  | c :: rest =>
    if c = '\x7b' then
      match rest.span (fun d => d ≠ '\x7d') with
      | (_, d :: r3) => if d = '\x7d' then some r3 else none
      | (_, []) => none
    else if c = '*' then do
      let (_, r2) ← spanPlus isSpaceChar rest
      let r3 ← litMatch "as".data r2
      let (_, r4) ← spanPlus isSpaceChar r3
      let (_, r5) ← spanPlus isWordChar r4
      pure r5
    else do
      let (_, r) ← spanPlus isWordChar s
      pure r

/-- `nodeImportRe`: anywhere, `import`, spaces, an import clause, spaces,
`from`, spaces, then a quoted captured path. -/
def nodeImportAt (s : List Char) : Option (List Char × List Char) := do
  let s1 ← litMatch "import".data s
  let (_, s2) ← spanPlus isSpaceChar s1
  let s3 ← nodeImportClause s2
  let (_, s4) ← spanPlus isSpaceChar s3
  let s5 ← litMatch "from".data s4
  let (_, s6) ← spanPlus isSpaceChar s5
  let s7 ← quoteCh s6
  let (w, s8) ← spanPlus (fun c => !(isQuoteChar c)) s7
  let s9 ← quoteCh s8
  pure (w, s9)

/-- `goSingleImportRe`: at a line start, `import`, spaces, then a captured
double-quoted path. -/
def goSingleAt (s : List Char) : Option (List Char × List Char) := do
  let s1 ← litMatch "import".data s
  let (_, s2) ← spanPlus isSpaceChar s1
  let s3 ← dquoteCh s2
  let (w, s4) ← spanPlus (fun c => c ≠ '"') s3
  let s5 ← dquoteCh s4
  pure (w, s5)

/-- A double-quoted non-empty run of non-quote characters. -/
def goQuoteAt (s : List Char) : Option (List Char × List Char) := do
  let s1 ← dquoteCh s
  let (w, s2) ← spanPlus (fun c => c ≠ '"') s1
  let s3 ← dquoteCh s2
  pure (w, s3)

/-- Greedy search for `goGroupImportRe`'s `[^/]*` repetition: the star is
greedy, so the largest offset `k` (bounded by the first slash) at which a
quoted string follows is taken. -/
def goGroupSearch (s : List Char) : Nat → Option (List Char × List Char)
  | 0 => goQuoteAt s
  | k + 1 =>
    match goQuoteAt (s.drop (k + 1)) with
    | some r => some r
    | none => goGroupSearch s k

/-- `goGroupImportRe`: at a line start, any run of non-slash characters,
then a captured double-quoted string. -/
def goGroupAt (s : List Char) : Option (List Char × List Char) :=
  goGroupSearch s ((s.span (fun c => c ≠ '/')).1.length)

/-! ### Standard-library sets, alias table, and the parse functions -/

/-- `pythonStdLib` of parser.go. -/
def pythonStdLib : List String :=
  ["os", "sys", "datetime", "json", "math",
   "random", "re", "time", "collections", "pathlib"]

/-- `nodeStdLib` of parser.go. -/
def nodeStdLib : List String :=
  ["fs", "path", "http", "https", "crypto",
   "buffer", "stream", "util", "events", "os"]

/-- `goStdLib` of parser.go. -/
def goStdLib : List String :=
  ["fmt", "os", "io", "strings", "time",
   "net/http", "encoding/json", "path/filepath"]

def pythonStd (p : String) : Bool := pythonStdLib.contains p

def nodeStd (p : String) : Bool := nodeStdLib.contains p

def goStd (p : String) : Bool := goStdLib.contains p

/-- `pythonPkgMap`: the alias table mapping an import symbol to its
installable package name. -/
def pythonPkgMap (p : String) : String := if p = "PIL" then "pillow" else p

/-- Splitting on `/`, the semantics of `strings.Split(path, "/")`. -/
def splitSlash : List Char → List (List Char)
  | [] => [[]]
  | c :: rest =>
    match splitSlash rest with
    | [] => [[]]
    | g :: gs => if c = '/' then [] :: g :: gs else (c :: g) :: gs

/-- Joining with `/`, the semantics of `strings.Join(parts, "/")`. -/
def joinSlash : List (List Char) → List Char
  | [] => []
  | [g] => g
  | g :: gs => g ++ '/' :: joinSlash gs

/-- `getBasePackage` of parser.go on character lists: a scoped path with at
least two segments keeps its first two segments; anything else reduces to
its first segment. -/
def getBasePackageL (p : List Char) : List Char :=
  if p.head? = some '@' ∧ 2 ≤ (splitSlash p).length then
    joinSlash ((splitSlash p).take 2)
  else
    (splitSlash p).headD []

/-- `getBasePackage` on strings. -/
def getBasePackage (s : String) : String := String.mk (getBasePackageL s.data)

/-- The `imports[pkg] = true` step of parser.go guarded by the
standard-library filter; the Go map is modelled as an insertion-ordered
deduplicated list. -/
def addImport (std : String → Bool) (acc : List String) (pkg : String) : List String :=
  if std pkg then acc
  else if acc.contains pkg then acc
  else acc ++ [pkg]

/-- All raw captures of the three Python patterns, in pass order. -/
def pythonMatches (code : String) : List String :=
  let cs := code.data
  let f := cs.length + 1
  ((scanAnchored pyImportAt f true cs)
    ++ (scanAnchored pyFromAt f true cs)
    ++ (scanFree pyDynamicAt f cs)).map (fun l => String.mk l)

/-- All raw captures of the three Node patterns, in pass order. -/
def nodeMatches (code : String) : List String :=
  let cs := code.data
  let f := cs.length + 1
  ((scanFree nodeRequireAt f cs)
    ++ (scanFree nodeImportAt f cs)
    ++ (scanFree nodeDynamicAt f cs)).map (fun l => String.mk l)

/-- All raw captures of the two Go patterns, in pass order. -/
def goMatches (code : String) : List String :=
  let cs := code.data
  let f := cs.length + 1
  ((scanAnchored goSingleAt f true cs)
    ++ (scanAnchored goGroupAt f true cs)).map (fun l => String.mk l)

/-- `ParsePythonImports` of parser.go. -/
def ParsePythonImports (code : String) : List String :=
  (pythonMatches code).foldl (fun acc m => addImport pythonStd acc (pythonPkgMap m)) []

/-- `ParseNodeImports` of parser.go. -/
def ParseNodeImports (code : String) : List String :=
  (nodeMatches code).foldl (fun acc m => addImport nodeStd acc (getBasePackage m)) []

/-- `ParseGoImports` of parser.go. -/
def ParseGoImports (code : String) : List String :=
  (goMatches code).foldl (fun acc m => addImport goStd acc m) []

/-! ### Fold lemmas shared by the detector claims -/

lemma addImport_fold_nil (std : String → Bool) (f : String → String) :
    ∀ ms : List String, (∀ m ∈ ms, std (f m) = true) →
      ms.foldl (fun acc m => addImport std acc (f m)) [] = [] := by
  intro ms h
  induction ms with
  | nil => rfl
  | cons m rest ih =>
    have hm : std (f m) = true := h m (List.mem_cons_self m rest)
    simp only [List.foldl_cons, addImport, hm, if_pos rfl]
    exact ih (fun x hx => h x (List.mem_cons_of_mem m hx))

lemma addImport_fold_mem (std : String → Bool) (f : String → String) :
    ∀ (ms : List String) (acc : List String), (∀ q ∈ acc, std q = false) →
      ∀ q ∈ ms.foldl (fun acc m => addImport std acc (f m)) acc, std q = false := by
  intro ms
  induction ms with
  | nil => intro acc hacc q hq; exact hacc q hq
  | cons m rest ih =>
    intro acc hacc q hq
    simp only [List.foldl_cons] at hq
    refine ih (addImport std acc (f m)) ?_ q hq
    intro x hx
    unfold addImport at hx
    by_cases h1 : std (f m) = true
    · simp only [h1, if_pos rfl] at hx
      exact hacc x hx
    · have h1' : std (f m) = false := by
        cases h : std (f m) with
        | true => exact absurd h h1
        | false => rfl
      simp only [h1', Bool.false_eq_true, if_neg] at hx
      by_cases h2 : acc.contains (f m) = true
      · simp only [h2, if_pos rfl] at hx
        exact hacc x hx
      · simp only [h2] at hx
        rcases List.mem_append.mp hx with h3 | h3
        · exact hacc x h3
        · have : x = f m := List.mem_singleton.mp h3
          rw [this]; exact h1'

/-! ### Claim C1: comment and string spans -/

/-- C1: the claim says import-like text inside comments and string literals
is never detected.  The regex-based detector does match inside such spans:
a Node line comment containing a require call, a Python triple-quoted
string containing an import line, and a Go string literal each produce a
detected package. -/
theorem claim_C1_eval :
    ParseNodeImports "// require(\x27axios\x27)" = ["axios"]
    ∧ ParsePythonImports "s = \x22\x22\x22\nimport requests\n\x22\x22\x22" = ["requests"]
    ∧ ParseGoImports "x := \x22hello\x22" = ["hello"] := by
  refine ⟨?_, ?_, ?_⟩ <;> rfl

/-! ### Claim C4: standard-library filtering -/

/-- C4: over source whose matched imports (after alias mapping and
base-package reduction) are all standard-library modules, each detector
returns the empty list; and no returned list ever contains a
standard-library module name of that language. -/
theorem claim_C4 (pcode ncode gcode : String) :
    ((∀ m ∈ pythonMatches pcode, pythonStd (pythonPkgMap m) = true) →
       ParsePythonImports pcode = [])
    ∧ (∀ p ∈ ParsePythonImports pcode, pythonStd p = false)
    ∧ ((∀ m ∈ nodeMatches ncode, nodeStd (getBasePackage m) = true) →
       ParseNodeImports ncode = [])
    ∧ (∀ p ∈ ParseNodeImports ncode, nodeStd p = false)
    ∧ ((∀ m ∈ goMatches gcode, goStd m = true) → ParseGoImports gcode = [])
    ∧ (∀ p ∈ ParseGoImports gcode, goStd p = false) := by
  refine ⟨fun h => addImport_fold_nil pythonStd pythonPkgMap _ h,
          fun p hp => addImport_fold_mem pythonStd pythonPkgMap _ [] (by intro q hq; cases hq) p hp,
          fun h => addImport_fold_nil nodeStd getBasePackage _ h,
          fun p hp => addImport_fold_mem nodeStd getBasePackage _ [] (by intro q hq; cases hq) p hp,
          fun h => addImport_fold_nil goStd (fun m => m) _ h,
          fun p hp => addImport_fold_mem goStd (fun m => m) _ [] (by intro q hq; cases hq) p hp⟩

/-- Witness for C4 at concrete inputs: standard-library-only sources give
empty results, and a returned entry is never standard-library. -/
theorem claim_C4_witness :
    ParsePythonImports "import os\nfrom json import dumps" = []
    ∧ ParseNodeImports "const fs = require(\x27fs\x27)" = []
    ∧ ParseGoImports "import \x22fmt\x22" = []
    ∧ pythonStd "requests" = false :=
  ⟨(claim_C4 "import os\nfrom json import dumps" "" "").1 (by decide),
   (claim_C4 "" "const fs = require(\x27fs\x27)" "").2.2.1 (by decide),
   (claim_C4 "" "" "import \x22fmt\x22").2.2.2.2.1 (by decide),
   (claim_C4 "import requests" "" "").2.1 "requests" (by decide)⟩

/-! ### Claim C9: installable-unit reduction -/

lemma splitSlash_ne_nil (l : List Char) : splitSlash l ≠ [] := by
  cases l with
  | nil => simp [splitSlash]
  | cons c rest =>
    simp only [splitSlash]
    cases h : splitSlash rest with
    | nil => simp
    | cons g gs =>
      by_cases hc : c = '/' <;> simp [hc]

lemma splitSlash_noSlash (l : List Char) (h : '/' ∉ l) : splitSlash l = [l] := by
  induction l with
  | nil => rfl
  | cons c rest ih =>
    have hc : c ≠ '/' := fun he => h (he ▸ List.mem_cons_self c rest)
    have hr : '/' ∉ rest := fun hm => h (List.mem_cons_of_mem c hm)
    simp only [splitSlash, ih hr]
    simp [hc]

lemma splitSlash_append (a t : List Char) (ha : '/' ∉ a) :
    splitSlash (a ++ '/' :: t) = a :: splitSlash t := by
  induction a with
  | nil =>
    simp only [List.nil_append, splitSlash]
    cases h : splitSlash t with
    | nil => exact absurd h (splitSlash_ne_nil t)
    | cons g gs => simp
  | cons c a' ih =>
    have hc : c ≠ '/' := fun he => ha (he ▸ List.mem_cons_self c a')
    have ha' : '/' ∉ a' := fun hm => ha (List.mem_cons_of_mem c hm)
    have hrw := ih ha'
    simp only [List.cons_append, splitSlash, List.append_eq]
    rw [hrw]
    simp [hc]

/-- C9: `getBasePackage` keeps an organization-scoped path's first two
segments as one installable unit (with or without further submodule
segments) and reduces an unscoped path with submodule segments to its
first segment. -/
theorem claim_C9 (org pkg rest : List Char) (horg : '/' ∉ org) (hpkg : '/' ∉ pkg)
    (hp : pkg.head? ≠ some '@') :
    getBasePackageL ('@' :: org ++ '/' :: pkg) = '@' :: org ++ '/' :: pkg
    ∧ getBasePackageL ('@' :: org ++ '/' :: (pkg ++ '/' :: rest)) = '@' :: org ++ '/' :: pkg
    ∧ getBasePackageL (pkg ++ '/' :: rest) = pkg := by
  have horg' : '/' ∉ '@' :: org := by
    intro hm
    rcases List.mem_cons.mp hm with h | h
    · cases h
    · exact horg h
  refine ⟨?_, ?_, ?_⟩
  · have hs : splitSlash ('@' :: org ++ '/' :: pkg) = ('@' :: org) :: splitSlash pkg :=
      splitSlash_append ('@' :: org) pkg horg'
    have hs2 : splitSlash pkg = [pkg] := splitSlash_noSlash pkg hpkg
    rw [getBasePackageL, if_pos]
    · rw [hs, hs2]
      rfl
    · constructor
      · simp
      · rw [hs, hs2]
        simp
  · have hs : splitSlash ('@' :: org ++ '/' :: (pkg ++ '/' :: rest))
        = ('@' :: org) :: splitSlash (pkg ++ '/' :: rest) :=
      splitSlash_append ('@' :: org) (pkg ++ '/' :: rest) horg'
    have hs2 : splitSlash (pkg ++ '/' :: rest) = pkg :: splitSlash rest :=
      splitSlash_append pkg rest hpkg
    rw [getBasePackageL, if_pos]
    · rw [hs, hs2]
      rfl
    · constructor
      · simp
      · rw [hs, hs2]
        simp [Nat.le_add_right]
  · have hs2 : splitSlash (pkg ++ '/' :: rest) = pkg :: splitSlash rest :=
      splitSlash_append pkg rest hpkg
    rw [getBasePackageL, if_neg]
    · rw [hs2]
      rfl
    · rintro ⟨hhead, -⟩
      cases pkg with
      | nil => simp at hhead
      | cons c p' =>
        simp only [List.cons_append, List.head?] at hhead
        exact hp (by simp [List.head?, hhead])

/-- Witness for C9 at concrete paths: a scoped import with a submodule
keeps its two-segment unit, an unscoped import with a submodule reduces to
its first segment. -/
theorem claim_C9_witness :
    getBasePackage "@org/pkg/sub" = "@org/pkg" ∧ getBasePackage "lodash/fp" = "lodash" := by
  have h := claim_C9 "org".data "pkg".data "sub".data (by decide) (by decide) (by decide)
  have h2 := claim_C9 "x".data "lodash".data "fp".data (by decide) (by decide) (by decide)
  constructor
  · show String.mk (getBasePackageL "@org/pkg/sub".data) = "@org/pkg"
    have hd : "@org/pkg/sub".data = '@' :: "org".data ++ '/' :: ("pkg".data ++ '/' :: "sub".data) := by decide
    rw [hd, h.2.1]
    decide
  · show String.mk (getBasePackageL "lodash/fp".data) = "lodash"
    have hd : "lodash/fp".data = "lodash".data ++ '/' :: "fp".data := by decide
    rw [hd, h2.2.2]

/-! ### Language registry (languages package) -/

inductive Lang where
  | Python
  | Go
  | NodeJS
deriving DecidableEq, Repr

structure LanguageConfig where
  Image : String
  DependencyFiles : List String
  InstallCommand : List String
  RunCommand : List String
deriving DecidableEq, Repr

/-- `SupportedLanguages` of the languages package. -/
def SupportedLanguages : Lang → LanguageConfig
  | .Python =>
    ⟨"python:3.12-slim-bookworm",
     ["requirements.txt", "pyproject.toml", "setup.py"],
     ["pip", "install", "-r", "requirements.txt"],
     ["python3", "-c"]⟩
  | .Go =>
    ⟨"golang:1.21-alpine",
     ["go.mod"],
     ["go mod init &&", "go", "mod", "download"],
     ["go", "run", "main.go"]⟩
  | .NodeJS =>
    ⟨"oven/bun:debian",
     ["package.json"],
     ["npm", "install"],
     ["bun", "run", "main.ts"]⟩

/-- `strings.Join(cmd, " ")`. -/
def joinSpace (cmd : List String) : String := String.intercalate " " cmd

/-- The dependency-file probe of `runProjectInDocker`: the first entry of
the language's `DependencyFiles` present in the project directory, where
`present` is the set of file names the directory contains. -/
def findDepFile (lang : Lang) (present : List String) : Option String :=
  (SupportedLanguages lang).DependencyFiles.find? (fun f => present.contains f)

/-- Whether `filepath.Ext(lastArg)` is non-empty: the final slash-separated
element contains a dot. -/
def extNonempty (s : String) : Bool :=
  ((splitSlash s.data).getLastD []).contains '.'

/-- The Node command rewrite of the part_010 variant: when the final
entrypoint token has a file extension and the registry's run command is
non-nil, the first token is replaced by the registry run command.  Indexing
`cmd[len(cmd)-1]` panics on an empty command list; the panic is modelled as
`none`. -/
def nodeAdjustCmd (lang : Lang) (cmd : List String) : Option (List String) :=
  match cmd.getLast? with
  | none => none
  | some lastArg =>
    if extNonempty lastArg then
      if (SupportedLanguages lang).RunCommand ≠ [] then
        some ((SupportedLanguages lang).RunCommand ++ cmd.tail)
      else some cmd
    else some cmd

/-- The container command built by `runProjectInDocker` of
tools/run_project.go: `none` means `containerConfig.Cmd` is never assigned
and the container is created without a command. -/
def composeProjectCmd (lang : Lang) (present : List String) (cmd : List String) :
    Option (List String) :=
  match findDepFile lang present with
  | none => none
  | some depFile =>
    match lang with
    | .Python =>
      if depFile = "requirements.txt" then
        some ["/bin/sh", "-c", "pip install -r " ++ depFile ++ " && " ++ joinSpace cmd]
      else if depFile = "pyproject.toml" ∨ depFile = "setup.py" then
        some ["/bin/sh", "-c", "pip install . && " ++ joinSpace cmd]
      else none
    | .Go => some ["/bin/sh", "-c", "go mod download && " ++ joinSpace cmd]
    | .NodeJS => some ["/bin/sh", "-c", "npm install && " ++ joinSpace cmd]

/-- The container command built by `runProjectInDocker` of the part_010
variant, which also assigns the command when no dependency file is found
and applies the Node extension rewrite. -/
def composeProjectCmdV2 (lang : Lang) (present : List String) (cmd : List String) :
    Option (List String) :=
  match findDepFile lang present with
  | some depFile =>
    match lang with
    | .Python =>
      if depFile = "requirements.txt" then
        some ["/bin/sh", "-c", "pip install -r " ++ depFile ++ " && " ++ joinSpace cmd]
      else if depFile = "pyproject.toml" ∨ depFile = "setup.py" then
        some ["/bin/sh", "-c", "pip install . && " ++ joinSpace cmd]
      else none
    | .Go => some ["/bin/sh", "-c", "go mod download && " ++ joinSpace cmd]
    | .NodeJS =>
      (nodeAdjustCmd .NodeJS cmd).map
        (fun c => ["/bin/sh", "-c", "npm install && " ++ joinSpace c])
  | none =>
    match lang with
    | .NodeJS => nodeAdjustCmd .NodeJS cmd
    | _ => some cmd

/-! ### Claim C2: the run step is never omitted -/

/-- C2: the claim says the container command always includes the
entrypoint.  In tools/run_project.go, a project directory with no
recognized manifest leaves `containerConfig.Cmd` unset: the entrypoint is
dropped entirely.  The part_010 variant does pass the entrypoint in that
case. -/
theorem claim_C2_eval :
    composeProjectCmd Lang.Python [] ["python3", "main.py"] = none
    ∧ composeProjectCmdV2 Lang.Python [] ["python3", "main.py"]
      = some ["python3", "main.py"] := by
  refine ⟨rfl, rfl⟩

/-! ### Claim C3: install step iff manifest, joined with the fail-fast operator -/

/-- C3: a recognized manifest in the project directory yields a composed
command whose non-empty install step precedes the run step joined by the
shell and-operator; without a manifest no install step is produced (the
tools/run_project.go flow produces no command at all, the part_010 variant
produces exactly the run tokens). -/
theorem claim_C3 (lang : Lang) (present : List String) (cmd : List String)
    (hc : cmd ≠ []) :
    (findDepFile lang present ≠ none →
      (∃ install, install ≠ ""
        ∧ composeProjectCmd lang present cmd
          = some ["/bin/sh", "-c", install ++ " && " ++ joinSpace cmd])
      ∧ (∃ install run, install ≠ ""
        ∧ composeProjectCmdV2 lang present cmd
          = some ["/bin/sh", "-c", install ++ " && " ++ run]))
    ∧ (findDepFile lang present = none →
      composeProjectCmd lang present cmd = none
      ∧ (composeProjectCmdV2 lang present cmd = some cmd
         ∨ composeProjectCmdV2 lang present cmd
           = some ((SupportedLanguages lang).RunCommand ++ cmd.tail))) := by
  obtain ⟨c0, cs, rfl⟩ : ∃ c0 cs, cmd = c0 :: cs := by
    cases cmd with
    | nil => exact absurd rfl hc
    | cons c0 cs => exact ⟨c0, cs, rfl⟩
  constructor
  · intro h
    cases hdf : findDepFile lang present with
    | none => exact absurd hdf h
    | some df =>
      have hmem : df ∈ (SupportedLanguages lang).DependencyFiles :=
        List.mem_of_find?_eq_some hdf
      cases lang with
      | Python =>
        simp only [SupportedLanguages, List.mem_cons, List.mem_singleton,
          List.not_mem_nil, or_false] at hmem
        rcases hmem with rfl | rfl | rfl
        · refine ⟨⟨"pip install -r requirements.txt", by decide, ?_⟩,
                  ⟨"pip install -r requirements.txt", joinSpace (c0 :: cs), by decide, ?_⟩⟩
          · simp [composeProjectCmd, hdf]
          · simp [composeProjectCmdV2, hdf]
        · refine ⟨⟨"pip install .", by decide, ?_⟩,
                  ⟨"pip install .", joinSpace (c0 :: cs), by decide, ?_⟩⟩
          · simp [composeProjectCmd, hdf]
          · simp [composeProjectCmdV2, hdf]
        · refine ⟨⟨"pip install .", by decide, ?_⟩,
                  ⟨"pip install .", joinSpace (c0 :: cs), by decide, ?_⟩⟩
          · simp [composeProjectCmd, hdf]
          · simp [composeProjectCmdV2, hdf]
      | Go =>
        refine ⟨⟨"go mod download", by decide, by simp [composeProjectCmd, hdf]⟩,
                ⟨"go mod download", joinSpace (c0 :: cs), by decide,
                 by simp [composeProjectCmdV2, hdf]⟩⟩
      | NodeJS =>
        refine ⟨⟨"npm install", by decide, by simp [composeProjectCmd, hdf]⟩, ?_⟩
        by_cases hext : extNonempty ((c0 :: cs).getLast (by simp)) = true
        · refine ⟨"npm install",
            joinSpace ((SupportedLanguages Lang.NodeJS).RunCommand ++ cs),
            by decide, ?_⟩
          simp [composeProjectCmdV2, hdf, nodeAdjustCmd, List.getLast?_eq_getLast, hext,
            SupportedLanguages]
        · refine ⟨"npm install", joinSpace (c0 :: cs), by decide, ?_⟩
          simp [composeProjectCmdV2, hdf, nodeAdjustCmd, List.getLast?_eq_getLast, hext]
  · intro h
    refine ⟨by simp [composeProjectCmd, h], ?_⟩
    cases lang with
    | Python => left; simp [composeProjectCmdV2, h]
    | Go => left; simp [composeProjectCmdV2, h]
    | NodeJS =>
      by_cases hext : extNonempty ((c0 :: cs).getLast (by simp)) = true
      · right
        simp [composeProjectCmdV2, h, nodeAdjustCmd, List.getLast?_eq_getLast, hext,
          SupportedLanguages]
      · left
        simp [composeProjectCmdV2, h, nodeAdjustCmd, List.getLast?_eq_getLast, hext]

/-- Witness for C3 at a concrete Python project with a requirements file
and entrypoint. -/
theorem claim_C3_witness :
    (composeProjectCmd Lang.Python ["requirements.txt", "main.py"]
      ["python3", "main.py"]).isSome = true := by
  obtain ⟨⟨install, hne, heq⟩, -⟩ :=
    (claim_C3 Lang.Python ["requirements.txt", "main.py"] ["python3", "main.py"]
      (by decide)).1 (by decide)
  rw [heq]
  rfl

/-! ### The exec loop (Exec in the tools package) -/

structure ExecOutcome where
  stdout : String
  stderr : String
  exitCode : Int
deriving DecidableEq, Repr

/-- The stdout block appended for one command: the stdout text, newline
terminated if it was not already. -/
def stdoutPart (r : ExecOutcome) : String :=
  if r.stdout ≠ "" then r.stdout ++ (if r.stdout.endsWith "\n" then "" else "\n") else ""

/-- The stderr block appended for one command. -/
def stderrPart (r : ExecOutcome) : String :=
  if r.stderr ≠ "" then
    "Error: " ++ r.stderr ++ (if r.stderr.endsWith "\n" then "" else "\n")
  else ""

/-- The per-command transcript block: a blank-line separator for all but
the first command, the `$`-label naming the command, then its output. -/
def execBlock (first : Bool) (c : String) (r : ExecOutcome) : String :=
  (if first then "" else "\n\n") ++ ("$ " ++ c ++ "\n") ++ stdoutPart r ++ stderrPart r

/-- The command loop of `Exec`: each command is paired with the outcome its
execution would produce; on a non-zero exit code the exit line is appended
and the loop stops.  Returns the transcript and the list of commands that
were executed. -/
def execLoop : Bool → List (String × ExecOutcome) → String × List String
  | _, [] => ("", [])
  | first, (c, r) :: rest =>
    if r.exitCode ≠ 0 then
      (execBlock first c r ++ "Command exited with code " ++ toString r.exitCode ++ "\n", [c])
    else
      (execBlock first c r ++ (execLoop false rest).1, c :: (execLoop false rest).2)

/-- `Exec` of the tools package, at the level of the command loop. -/
def Exec (ps : List (String × ExecOutcome)) : String × List String := execLoop true ps

/-- The number of commands the loop executes: everything up to and
including the first one with a non-zero exit code. -/
def execCount : List (String × ExecOutcome) → Nat
  | [] => 0
  | (_, r) :: rest => if r.exitCode ≠ 0 then 1 else 1 + execCount rest

lemma execLoop_executed (ps : List (String × ExecOutcome)) :
    ∀ first, (execLoop first ps).2 = (ps.map Prod.fst).take (execCount ps) := by
  induction ps with
  | nil => intro first; rfl
  | cons p rest ih =>
    intro first
    obtain ⟨c, r⟩ := p
    by_cases h : r.exitCode ≠ 0
    · simp [execLoop, execCount, h]
    · simp [execLoop, execCount, h, ih false, Nat.add_comm]

lemma execCount_le_of_fail (ps : List (String × ExecOutcome)) :
    ∀ i, ∀ hi : i < ps.length, (ps.get ⟨i, hi⟩).2.exitCode ≠ 0 → execCount ps ≤ i + 1 := by
  induction ps with
  | nil => intro i hi; cases hi
  | cons p rest ih =>
    intro i hi hf
    obtain ⟨c, r⟩ := p
    cases i with
    | zero =>
      have hf0 : r.exitCode ≠ 0 := hf
      have : execCount ((c, r) :: rest) = 1 := by simp [execCount, hf0]
      omega
    | succ j =>
      have hf' : (rest.get ⟨j, Nat.lt_of_succ_lt_succ hi⟩).2.exitCode ≠ 0 := hf
      have hrec := ih j (Nat.lt_of_succ_lt_succ hi) hf'
      by_cases h0 : r.exitCode ≠ 0
      · have : execCount ((c, r) :: rest) = 1 := by simp [execCount, h0]
        omega
      · have : execCount ((c, r) :: rest) = 1 + execCount rest := by simp [execCount, h0]
        omega

lemma execLoop_label (ps : List (String × ExecOutcome)) :
    ∀ first, ∀ c ∈ (execLoop first ps).2,
      ∃ u v, (execLoop first ps).1 = u ++ ("$ " ++ c ++ "\n") ++ v := by
  induction ps with
  | nil => intro first c hc; cases hc
  | cons p rest ih =>
    intro first c hc
    obtain ⟨c0, r⟩ := p
    by_cases h : r.exitCode ≠ 0
    · simp only [execLoop, if_pos h] at hc ⊢
      have hc0 : c = c0 := List.mem_singleton.mp hc
      subst hc0
      refine ⟨if first then "" else "\n\n",
              stdoutPart r ++ stderrPart r
                ++ ("Command exited with code " ++ toString r.exitCode ++ "\n"), ?_⟩
      simp [execBlock, String.append_assoc]
    · simp only [execLoop, if_neg h] at hc ⊢
      rcases List.mem_cons.mp hc with rfl | hmem
      · refine ⟨if first then "" else "\n\n",
                stdoutPart r ++ stderrPart r ++ (execLoop false rest).1, ?_⟩
        simp [execBlock, String.append_assoc]
      · obtain ⟨u, v, hu⟩ := ih false c hmem
        refine ⟨execBlock first c0 r ++ u, v, ?_⟩
        rw [hu]
        simp [String.append_assoc]

lemma execLoop_exitline (ps : List (String × ExecOutcome)) :
    ∀ first c r, ps.find? (fun p => p.2.exitCode != 0) = some (c, r) →
      ∃ u, (execLoop first ps).1
        = u ++ ("Command exited with code " ++ toString r.exitCode ++ "\n") := by
  induction ps with
  | nil => intro first c r h; cases h
  | cons p rest ih =>
    intro first c r h
    obtain ⟨c0, r0⟩ := p
    by_cases h0 : r0.exitCode ≠ 0
    · have hfind : List.find? (fun q => q.2.exitCode != 0) ((c0, r0) :: rest)
          = some (c0, r0) :=
        List.find?_cons_of_pos (p := fun q => q.2.exitCode != 0) rest
          (by simp [bne_iff_ne, h0])
      rw [hfind] at h
      have hpair : (c0, r0) = (c, r) := Option.some.inj h
      have hr : r = r0 := (congrArg Prod.snd hpair).symm
      refine ⟨execBlock first c0 r0, ?_⟩
      rw [hr]
      simp only [execLoop, if_pos h0]
      simp [String.append_assoc]
    · have hfind : List.find? (fun q => q.2.exitCode != 0) ((c0, r0) :: rest)
          = List.find? (fun q => q.2.exitCode != 0) rest :=
        List.find?_cons_of_neg (p := fun q => q.2.exitCode != 0) rest
          (by simp [bne_iff_ne]; exact not_not.mp h0)
      rw [hfind] at h
      obtain ⟨u, hu⟩ := ih false c r h
      refine ⟨execBlock first c0 r0 ++ u, ?_⟩
      simp only [execLoop, if_neg h0]
      rw [hu]
      simp [String.append_assoc]

/-- C5: commands are executed in list order (the executed list is a prefix
of the command list), no command after a non-zero exit is executed, every
executed command is labelled in the transcript, and the first failing
command's exit code is reported at the end of the transcript. -/
theorem claim_C5 (ps : List (String × ExecOutcome)) :
    (Exec ps).2 = (ps.map Prod.fst).take (execCount ps)
    ∧ (∀ i j, ∀ hi : i < ps.length, i < j →
        (ps.get ⟨i, hi⟩).2.exitCode ≠ 0 → (Exec ps).2.length ≤ j)
    ∧ (∀ c ∈ (Exec ps).2, ∃ u v, (Exec ps).1 = u ++ ("$ " ++ c ++ "\n") ++ v)
    ∧ (∀ c r, ps.find? (fun p => p.2.exitCode != 0) = some (c, r) →
        ∃ u, (Exec ps).1
          = u ++ ("Command exited with code " ++ toString r.exitCode ++ "\n")) := by
  refine ⟨execLoop_executed ps true, ?_, execLoop_label ps true,
          fun c r h => execLoop_exitline ps true c r h⟩
  intro i j hi hij hf
  have h1 : (Exec ps).2.length ≤ execCount ps := by
    show (execLoop true ps).2.length ≤ execCount ps
    rw [execLoop_executed ps true, List.length_take]
    exact Nat.min_le_left _ _
  have h2 : execCount ps ≤ i + 1 := execCount_le_of_fail ps i hi hf
  omega

def demoExecPs : List (String × ExecOutcome) :=
  [("ls", ⟨"a\n", "", 0⟩), ("boom", ⟨"", "fail", 2⟩), ("after", ⟨"ok", "", 0⟩)]

/-- Witness for C5: with a failing second command, at most two commands
execute. -/
theorem claim_C5_witness : (Exec demoExecPs).2.length ≤ 2 :=
  (claim_C5 demoExecPs).2.1 1 2 (by decide) (by decide) (by decide)

/-! ### Progress emission of run_code.go (claims C6 and C7) -/

/-- Whether a list of progress values never decreases. -/
def nonDecreasing : List Nat → Bool
  | [] => true
  | [_] => true
  | a :: b :: rest => decide (a ≤ b) && nonDecreasing (b :: rest)

/-- The sequence of progress values a run_code call emits, as a function of
the number of ticker ticks observed while waiting: 10 and 50 from
`RunCodeSandbox`, then `progress := 50; progress = progress + 5` per tick
inside `runInDocker`'s wait loop, then the final 100 from
`RunCodeSandbox`. -/
def runCodeProgress (ticks : Nat) : List Nat :=
  [10, 50] ++ (List.range ticks).map (fun i => 50 + 5 * (i + 1)) ++ [100]

/-- C6: the claim says the emitted progress sequence never decreases up to
the final 100.  That holds only while the wait loop ticks at most 10
times; at the eleventh tick the loop emits 105 and the final emission of
100 is a decrease. -/
theorem claim_C6_eval :
    nonDecreasing (runCodeProgress 10) = true
    ∧ nonDecreasing (runCodeProgress 11) = false := by
  exact ⟨rfl, rfl⟩

/-- A tool-call result: an error result or a text result. -/
inductive ToolResult where
  | errorResult (msg : String)
  | textResult (s : String)
deriving DecidableEq, Repr

/-- The control flow of `RunCodeSandbox` with respect to its
progress-notification sends.  `send1Ok` is the outcome of the first send
(progress 10), whose error is checked and returned; `send2Ok`, `send3Ok`
and `tickSendOks` are the outcomes of the progress-50 send, the final
progress-100 send and the per-tick sends, all of which the code ignores
(the tick failures are only printed).  `e` is the outcome of the Docker
execution.  The first component reports whether the execution was
reached. -/
def RunCodeFlow (langOk codeOk send1Ok : Bool) (_send2Ok _send3Ok : Bool)
    (_tickSendOks : List Bool) (e : Except String String) : Bool × ToolResult :=
  if langOk = false then (false, .errorResult "Language not supported")
  else if codeOk = false then (false, .errorResult "language must be a string")
  else if send1Ok = false then (false, .errorResult "Could not send progress to client")
  else
    match e with
    | .error msg => (true, .errorResult ("Error: " ++ msg))
    | .ok logs => (true, .textResult logs)

/-- Counterexample to C7: when the initial progress send fails, the code
execution does not proceed — `RunCodeSandbox` returns an error result
before running anything, contradicting the claim that a send failure
never aborts the operation. -/
theorem claim_C7_counter :
    (RunCodeFlow true true false true true [] (Except.ok "2\n")).1 = false := rfl

/-- C7 (amended): once the initial progress send has succeeded, the
execution is always reached and the result is independent of the outcomes
of all later progress sends; only a failure of the initial send aborts the
request. -/
theorem claim_C7 (s2 s3 s2' s3' : Bool) (t t' : List Bool) (e : Except String String) :
    (RunCodeFlow true true true s2 s3 t e).1 = true
    ∧ RunCodeFlow true true true s2 s3 t e = RunCodeFlow true true true s2' s3' t' e := by
  cases e <;> simp [RunCodeFlow]

/-! ### Single-file retrieval (tools/copy-file-from-container.go), claim C8 -/

/-- The byte value of `tar.TypeReg` (the ASCII digit zero). -/
def tarTypeReg : Nat := 48

structure TarEntry where
  typeflag : Nat
  mode : Int
  content : List Nat
deriving DecidableEq, Repr

structure DestFile where
  mode : Int
  content : List Nat
deriving DecidableEq, Repr

/-- `copyFileFromContainer`: `statIsDir` is whether the engine's stat for
the source path reports a directory; `archive` is the entry list of the
retrieved tar stream.  The code reads only the first entry: it errors when
the stat is a directory, when the archive has no entry (`tar.Next`
returns end of stream), or when the first entry is not a regular file;
otherwise it writes that entry's content and applies the entry header's
mode bits to the destination. -/
def copyFileFromContainer (statIsDir : Bool) (archive : List TarEntry) :
    Except String DestFile :=
  if statIsDir then .error "source path is a directory, only files are supported"
  else
    match archive with
    | [] => .error "failed to read tar header"
    | e :: _ =>
      if e.typeflag ≠ tarTypeReg then .error "source is not a regular file"
      else .ok ⟨e.mode, e.content⟩

def demoArchive : List TarEntry := [⟨48, 420, [104, 105]⟩, ⟨48, 420, [33]⟩]

/-- Counterexample to C8: an archive with two regular-file entries is not
rejected — the code reads only the first entry and succeeds, so it does
not validate that the archive contains exactly one entry. -/
theorem claim_C8_counter :
    demoArchive.length = 2
    ∧ copyFileFromContainer false demoArchive = Except.ok ⟨420, [104, 105]⟩ :=
  ⟨rfl, rfl⟩

/-- C8 (amended): retrieval errors when the source stat is a directory,
when the archive is empty, or when the archive's first entry is not a
regular file; on success it copies the first entry's content and sets the
destination mode to that entry's recorded header mode.  Entries after the
first are ignored, not rejected. -/
theorem claim_C8 (d : Bool) (archive : List TarEntry) :
    (d = true → copyFileFromContainer d archive
      = Except.error "source path is a directory, only files are supported")
    ∧ (d = false → archive = [] → copyFileFromContainer d archive
      = Except.error "failed to read tar header")
    ∧ (∀ e rest, d = false → archive = e :: rest → e.typeflag ≠ tarTypeReg →
        copyFileFromContainer d archive = Except.error "source is not a regular file")
    ∧ (∀ e rest, d = false → archive = e :: rest → e.typeflag = tarTypeReg →
        copyFileFromContainer d archive = Except.ok ⟨e.mode, e.content⟩) := by
  refine ⟨?_, ?_, ?_, ?_⟩
  · intro hd; subst hd; rfl
  · intro hd ha; subst hd; subst ha; rfl
  · intro e rest hd ha hne; subst hd; subst ha
    simp [copyFileFromContainer, hne]
  · intro e rest hd ha heq; subst hd; subst ha
    simp [copyFileFromContainer, heq]

/-- Witness for C8 at concrete inputs: a directory source errors, and a
one-entry archive restores the recorded mode. -/
theorem claim_C8_witness :
    copyFileFromContainer true []
      = Except.error "source path is a directory, only files are supported"
    ∧ copyFileFromContainer false [⟨48, 493, [104]⟩] = Except.ok ⟨493, [104]⟩ :=
  ⟨(claim_C8 true []).1 rfl,
   (claim_C8 false [⟨48, 493, [104]⟩]).2.2.2 ⟨48, 493, [104]⟩ [] rfl rfl rfl⟩

/-! ### Output combination (claim C10) -/

inductive StreamChan where
  | out
  | err
deriving DecidableEq, Repr

/-- A channel-tagged frame of the engine's multiplexed log stream. -/
structure Frame where
  chan : StreamChan
  payload : String
deriving DecidableEq, Repr

/-- Modelled from the spec: the log demultiplexer (the external stdcopy
library consumed by run_code.go, part_007 and part_010, specified in the
Log Demultiplexer section) splits a framed stream into a stdout buffer
and a stderr buffer by appending each frame's payload to its channel's
buffer in stream order, starting from empty buffers. -/
def demux (fs : List Frame) : String × String :=
  fs.foldl
    (fun acc f =>
      match f.chan with
      | .out => (acc.1 ++ f.payload, acc.2)
      | .err => (acc.1, acc.2 ++ f.payload))
    ("", "")

/-- The combined output the tools return: the stdout buffer followed by
the stderr buffer (`outBuf.String() + errBuf.String()`). -/
def combinedOutput (fs : List Frame) : String := (demux fs).1 ++ (demux fs).2

/-- The concatenation of all payloads of one channel, in stream order. -/
def concatAll : List String → String
  | [] => ""
  | s :: rest => s ++ concatAll rest

def outConcat (fs : List Frame) : String :=
  concatAll ((fs.filter (fun f => f.chan == StreamChan.out)).map (fun f => f.payload))

def errConcat (fs : List Frame) : String :=
  concatAll ((fs.filter (fun f => f.chan == StreamChan.err)).map (fun f => f.payload))

lemma demux_foldl (fs : List Frame) :
    ∀ o e : String,
      fs.foldl
        (fun acc f =>
          match f.chan with
          | .out => (acc.1 ++ f.payload, acc.2)
          | .err => (acc.1, acc.2 ++ f.payload))
        (o, e)
      = (o ++ outConcat fs, e ++ errConcat fs) := by
  induction fs with
  | nil =>
    intro o e
    simp [outConcat, errConcat, concatAll]
  | cons f rest ih =>
    intro o e
    cases hch : f.chan with
    | out =>
      simp only [List.foldl_cons, hch]
      rw [ih (o ++ f.payload) e]
      simp [outConcat, errConcat, concatAll, hch, String.append_assoc]
    | err =>
      simp only [List.foldl_cons, hch]
      rw [ih o (e ++ f.payload)]
      simp [outConcat, errConcat, concatAll, hch, String.append_assoc]

/-- C10: the combined output text is the concatenation of the complete
stdout buffer followed by the complete stderr buffer — the two channels
are never chronologically interleaved in the combined text, and a silent
channel contributes an empty (not absent) buffer. -/
theorem claim_C10 (fs : List Frame) :
    demux fs = (outConcat fs, errConcat fs)
    ∧ combinedOutput fs = outConcat fs ++ errConcat fs := by
  have h := demux_foldl fs "" ""
  have hd : demux fs = (outConcat fs, errConcat fs) := by
    rw [demux, h]
    simp
  exact ⟨hd, by rw [combinedOutput, hd]⟩

/-- Witness for C10 at a concrete interleaved stream: stdout frames `a`,
`b` and the stderr frame `x` combine to `ab` then `x`, not to the
chronological interleaving. -/
theorem claim_C10_witness :
    combinedOutput [⟨StreamChan.out, "a"⟩, ⟨StreamChan.err, "x"⟩, ⟨StreamChan.out, "b"⟩]
      = "ab" ++ "x" := by
  rw [(claim_C10 [⟨StreamChan.out, "a"⟩, ⟨StreamChan.err, "x"⟩, ⟨StreamChan.out, "b"⟩]).2]
  rfl
